import Mathlib

/-
  Verification development for the bittensor-pylon repository.

  Shallow embedding of the components the claims mention:
  * the tempo/epoch calculator (src/app/utils.py),
  * the ApplyWeights background job (src/pylon_service/tasks.py),
  * the archive-fallback wrapper (src/pylon/service/bittensor/client.py),
  * the bittensor client pool (src/pylon/service/bittensor/pool.py),
  * the async client transport retry loop (src/pylon/_internal/client/abstract.py),
  * the token_required decorator (src/pylon/service/api.py),
  * the weight store (src/app/db.py),
  * the mock pylon client (src/pylon/_internal/client/mock.py).

  Python integers are embedded as Int (arbitrary precision, Euclidean `%`
  for a positive modulus, matching Python's `%`), float weights as Rat
  (the claims only involve exact additions), and fallible calls as
  Option/Except.  Stateful code is embedded as explicit state passing;
  background-task runs are embedded as pure functions of the values the
  run observes (results of awaited calls), returning a trace of the
  externally visible calls the run makes.
-/

namespace Pylon

/-! ### Epoch calculator (src/app/utils.py, get_epoch_containing_block) -/

/-- Epoch model (src/app/models.py): a half-open window of blocks. -/
structure Epoch where
  epoch_start : Int
  epoch_end : Int
deriving DecidableEq, Repr

/-- Embedding of `get_epoch_containing_block(block, netuid, tempo)` from
src/app/utils.py.  The Python function asserts `tempo > 0`; theorems carry
that as a hypothesis.  Python `%` on ints with a positive right operand
agrees with `Int.emod`. -/
def get_epoch_containing_block (block netuid tempo : Int) : Epoch :=
  let interval := tempo + 1
  let next_epoch := block + tempo - (block + netuid + 1) % interval
  if next_epoch = block then
    { epoch_start := next_epoch, epoch_end := next_epoch + interval }
  else
    { epoch_start := next_epoch - interval, epoch_end := next_epoch }

/-! ### ApplyWeights job (src/pylon_service/tasks.py) -/

/-- A value stored in the hyperparameters dict fetched by
`ApplyWeights._fetch_hyperparams`; Python truthiness of the values that
occur there (bools and ints). -/
inductive HPValue where
  | bool (b : Bool)
  | int (i : Int)
deriving DecidableEq, Repr

/-- Python `bool(v)` for an `HPValue`. -/
def HPValue.truthy : HPValue → Bool
  | .bool b => b
  | .int i => i != 0

/-- Python `dict.get(k, default=None)` on an association list. -/
def hpGet (hp : List (String × HPValue)) (k : String) : Option HPValue :=
  (hp.find? (fun p => p.1 == k)).map (fun p => p.2)

/-- Embedding of `bool(hyperparams.get("commit_reveal_weights_enabled", False))`
from `ApplyWeights._apply_weights` (src/pylon_service/tasks.py line 198). -/
def commitRevealEnabled (hp : List (String × HPValue)) : Bool :=
  ((hpGet hp "commit_reveal_weights_enabled").getD (HPValue.bool false)).truthy

/-- Neuron fields used by weight translation (src/pylon_service/models.py
shape; only uid and hotkey are consumed here). -/
structure PsNeuron where
  uid : Int
  hotkey : String
deriving DecidableEq, Repr

/-- Modelled from the spec: `hotkeys_to_uids` lives in
`pylon_service/utils.py`, which is not present under src/ (only its
importers are).  Spec 4.F: build `uid_weights = \x7bn.uid: w for h, w in
weights if h in table\x7d` and report the hotkeys absent from the neuron
table. -/
def hotkeys_to_uids (neurons : List PsNeuron) (weights : List (String × Rat)) :
    List (Int × Rat) × List String :=
  (weights.filterMap
    (fun hw => (neurons.find? (fun n => n.hotkey == hw.1)).map (fun n => (n.uid, hw.2))),
   (weights.filter (fun hw => neurons.all (fun n => n.hotkey != hw.1))).map (fun hw => hw.1))

/-- A chain submission call made by `_apply_weights`: `weights_api.commit`
or `weights_api.set`. -/
inductive SubmitCall where
  | commit
  | set
deriving DecidableEq, Repr

/-- The values one inner attempt observes from the chain:
the hyperparameters fetch result (`none` embeds both a raised call and a
`None` result — `_fetch_hyperparams` raises on `None`), the
`list_neurons` result (`none` embeds a raised call), and whether the
final `weights_api` call returns (false embeds it raising). -/
structure AttemptEnv where
  hyperparams : Option (List (String × HPValue))
  neurons : Option (List PsNeuron)
  submitOk : Bool

/-- Embedding of `ApplyWeights._apply_weights` (src/pylon_service/tasks.py
lines 196-215).  Returns whether the attempt completed without raising,
and the list of submission calls it issued (a call that raises is still
recorded as issued). -/
def apply_weights (env : AttemptEnv) (weights : List (String × Rat)) :
    Bool × List SubmitCall :=
  match env.hyperparams with
  | none => (false, [])
  | some hp =>
    let commit_reveal_enabled := commitRevealEnabled hp
    match env.neurons with
    | none => (false, [])
    | some neurons =>
      let _uid_weights := hotkeys_to_uids neurons weights
      if commit_reveal_enabled then
        (env.submitOk, [SubmitCall.commit])
      else
        (env.submitOk, [SubmitCall.set])

/-- How a run of `ApplyWeights.run_job` ended: the initial block fetch
raised, the tempo-change check broke the loop, an attempt succeeded, or
the loop exhausted all retries. -/
inductive JobOutcome where
  | raised
  | tempoChanged
  | succeeded
  | exhausted
deriving DecidableEq, Repr

/-- Externally visible trace of one `run_job` run: submission calls
issued, the argument of each `asyncio.sleep`, the number of
`_apply_weights` invocations, and how the run ended. -/
structure JobTrace where
  submissions : List SubmitCall
  sleeps : List Int
  attemptsMade : Nat
  outcome : JobOutcome
deriving DecidableEq, Repr

/-- The values a `run_job` run observes.  `reads k` is the value of the
k-th access of `latest_block.number`: the repository's own test
(tests/test_put_weights_endpoint.py, MutableBlock) models this attribute
as a property whose successive accesses reflect the advancing chain, so
the embedding draws each access from a stream; `none` embeds Python
`None`.  `envs i` is the environment of the i-th `_apply_weights`
invocation. -/
structure JobInputs where
  reads : Nat → Option Int
  envs : Nat → AttemptEnv
  netuid : Int
  tempo : Int
  weights_retry_attempts : Nat
  weights_retry_delay_seconds : Int
  weights : List (String × Rat)

/-- The retry loop of `ApplyWeights.run_job` (src/pylon_service/tasks.py
lines 162-178).  Each iteration calls `_is_current_tempo`, which accesses
`latest_block.number` twice (lines 181 and 184, consuming `reads accIdx`
and `reads (accIdx + 1)`); a `None` value raises inside the `try`, which
is caught and followed by `asyncio.sleep(weights_retry_delay_seconds)`
like any other attempt failure.  A changed tempo breaks out of the loop;
a successful `_apply_weights` breaks out; any failure sleeps the fixed
delay and retries.  `fuel` is the number of remaining loop iterations
(`range(retry_count + 1)` gives `weights_retry_attempts + 1` in total);
the `asyncio.timeout` wrapping the whole loop is real time and is not
part of the embedding. -/
def run_job_loop (inp : JobInputs) (initial_tempo_start : Int) :
    Nat → Nat → Nat → List SubmitCall → List Int → JobTrace
  | _, att, 0, subs, sleeps =>
    ⟨subs, sleeps, att, JobOutcome.exhausted⟩
  | accIdx, att, fuel + 1, subs, sleeps =>
    match inp.reads accIdx with
    | none =>
      run_job_loop inp initial_tempo_start (accIdx + 1) att fuel
        subs (sleeps ++ [inp.weights_retry_delay_seconds])
    | some _ =>
      match inp.reads (accIdx + 1) with
      | none =>
        run_job_loop inp initial_tempo_start (accIdx + 2) att fuel
          subs (sleeps ++ [inp.weights_retry_delay_seconds])
      | some n =>
        if (get_epoch_containing_block n inp.netuid inp.tempo).epoch_start
            = initial_tempo_start then
          match apply_weights (inp.envs att) inp.weights with
          | (true, calls) =>
            ⟨subs ++ calls, sleeps, att + 1, JobOutcome.succeeded⟩
          | (false, calls) =>
            run_job_loop inp initial_tempo_start (accIdx + 2) (att + 1) fuel
              (subs ++ calls) (sleeps ++ [inp.weights_retry_delay_seconds])
        else
          ⟨subs, sleeps, att, JobOutcome.tempoChanged⟩

/-- Embedding of `ApplyWeights.run_job` (src/pylon_service/tasks.py lines
150-178).  Accesses 0 and 1 of `latest_block.number` happen before the
loop (the `is None` check on line 153 and the epoch computation on line
156); a `None` there raises out of the job.  The epoch of the starting
block is computed by `get_epoch_containing_block`, imported in tasks.py
from `pylon_service.utils` (absent from src/; per spec 4.E it is the same
subtensor formula as src/app/utils.py, applied with the configured netuid
and tempo). -/
def run_job (inp : JobInputs) : JobTrace :=
  match inp.reads 0 with
  | none => ⟨[], [], 0, JobOutcome.raised⟩
  | some _ =>
    match inp.reads 1 with
    | none => ⟨[], [], 0, JobOutcome.raised⟩
    | some n0 =>
      run_job_loop inp
        (get_epoch_containing_block n0 inp.netuid inp.tempo).epoch_start
        2 0 (inp.weights_retry_attempts + 1) [] []

/-- The retry back-off sequence as the spec words it (spec 4.F "Retry
policy"): initial `weights_retry_delay_seconds`, doubling after each
failure, capped at 10 times the initial value.  Stated from the spec for
comparison with the source-derived trace; the source sleeps a constant
delay. -/
def specClaimedSleeps (initial : Int) (failures : Nat) : List Int :=
  (List.range failures).map (fun i => min (initial * 2 ^ i) (10 * initial))

/-- Concrete job inputs for evaluating the tempo-expiry behaviour: the
first two block-number accesses see block 0, every later access sees
block 100 (past the end of block 0's epoch for tempo 10), and every
attempt fails before submitting. -/
def jobInputsTempoExpiry : JobInputs :=
  { reads := fun k => some (if k < 3 then 0 else 100),
    envs := fun _ => ⟨none, none, false⟩,
    netuid := 0, tempo := 10,
    weights_retry_attempts := 3, weights_retry_delay_seconds := 1,
    weights := [] }

/-- Concrete job inputs where the chain stays at block 0 and every
attempt fails before submitting; with two retries allowed, the job makes
three attempts and sleeps after each. -/
def jobInputsConstFail : JobInputs :=
  { reads := fun _ => some 0,
    envs := fun _ => ⟨none, none, false⟩,
    netuid := 0, tempo := 10,
    weights_retry_attempts := 2, weights_retry_delay_seconds := 1,
    weights := [] }

/-- Hyperparameters with commit-reveal enabled. -/
def hpCommitEnabled : List (String × HPValue) :=
  [("commit_reveal_weights_enabled", HPValue.bool true)]

/-- Concrete job inputs where the chain stays at block 0, the first
attempt fails before submitting and the second succeeds with
commit-reveal enabled. -/
def jobInputsCommitSuccess : JobInputs :=
  { reads := fun _ => some 0,
    envs := fun i =>
      if i = 0 then ⟨none, none, false⟩
      else ⟨some hpCommitEnabled, some [], true⟩,
    netuid := 0, tempo := 10,
    weights_retry_attempts := 3, weights_retry_delay_seconds := 1,
    weights := [] }

/-! ### Archive fallback (src/pylon/service/bittensor/client.py) -/

/-- Which underlying client an operation was executed on. -/
inductive ClientId where
  | main
  | archive
deriving DecidableEq, Repr

/-- The read operations routed through `BittensorClient._archive_fallback`
(src/pylon/service/bittensor/client.py lines 353-365). -/
inductive FallbackOp where
  | getNeurons
  | getHyperparams
  | getCertificates
  | getCertificate
deriving DecidableEq, Repr

/-- Exceptions a sub-client call can raise, as far as the fallback logic
distinguishes them: `turbobt.substrate.exceptions.UnknownBlock` against
anything else. -/
inductive ChainError where
  | unknownBlock
  | other
deriving DecidableEq, Repr

/-- Embedding of `BittensorClient._archive_fallback` (src/pylon/service/
bittensor/client.py lines 382-398).  `latest_number` is the number of the
block returned by `self.get_latest_block()` (main client);
`mainResult`/`archiveResult` are the outcomes the operation would have on
each sub-client.  Returns the list of `(client, operation)` calls
actually performed for the operation, and the overall outcome. -/
def archive_fallback {α : Type} (op : FallbackOp) (archive_blocks_cutoff : Int)
    (latest_number block_number : Int)
    (mainResult archiveResult : Except ChainError α) :
    List (ClientId × FallbackOp) × Except ChainError α :=
  if latest_number - block_number > archive_blocks_cutoff then
    ([(ClientId.archive, op)], archiveResult)
  else
    match mainResult with
    | Except.ok v => ([(ClientId.main, op)], Except.ok v)
    | Except.error ChainError.unknownBlock =>
      ([(ClientId.main, op), (ClientId.archive, op)], archiveResult)
    | Except.error e => ([(ClientId.main, op)], Except.error e)

/-! ### Client pool (src/pylon/service/bittensor/pool.py) -/

/-- The fields of `BittensorClientPool` that the concurrency contract is
about.  `acquire_counter` is an Int so that non-negativity is a theorem
rather than a typing artefact. -/
structure PoolState where
  is_open : Bool
  closing_state : Bool
  acquire_counter : Int
deriving DecidableEq, Repr

/-- Pool state at construction (src/pylon/service/bittensor/pool.py
lines 49-59). -/
def initPool : PoolState :=
  { is_open := false, closing_state := false, acquire_counter := 0 }

/-- Atomic state transitions of the pool.  Each event is one of the
regions of pool code that runs without suspension in the cooperative
scheduling model:
* `openPool`: `open()` (guard: `assert_not_closing`);
* `acquireOk`: the locked section of `acquire` when both asserts pass
  (increments the counter);
* `release`: the `finally` block of `acquire` (decrements the counter and
  notifies the close condition — the code decrements unconditionally);
* `closeBegin`: `close()` up to releasing the acquire lock (guards:
  `assert_not_closing`, `assert_not_closed`; sets `closing_state`);
* `closeFinish`: `close()` resuming after
  `wait_for(self.can_close)` — enabled exactly when `closing_state`
  holds and `can_close`, i.e. `acquire_counter == 0`; clears the pool and
  both flags. -/
inductive PoolEvent where
  | openPool
  | acquireOk
  | release
  | closeBegin
  | closeFinish
deriving DecidableEq, Repr

/-- One step of the pool transition system; `none` when the event's guard
fails (the corresponding code path raises or stays blocked instead). -/
def poolStep (s : PoolState) : PoolEvent → Option PoolState
  | PoolEvent.openPool =>
    if s.closing_state then none
    else some { s with is_open := true }
  | PoolEvent.acquireOk =>
    if s.closing_state || !s.is_open then none
    else some { s with acquire_counter := s.acquire_counter + 1 }
  | PoolEvent.release =>
    some { s with acquire_counter := s.acquire_counter - 1 }
  | PoolEvent.closeBegin =>
    if s.closing_state || !s.is_open then none
    else some { s with closing_state := true }
  | PoolEvent.closeFinish =>
    if s.closing_state && s.acquire_counter == 0 then
      some { is_open := false, closing_state := false,
             acquire_counter := s.acquire_counter }
    else none

/-- Run a trace of pool events from a state; `none` if any step is not
enabled. -/
def foldPool (s : PoolState) : List PoolEvent → Option PoolState
  | [] => some s
  | e :: tr => (poolStep s e).bind (fun s2 => foldPool s2 tr)

/-- Run a trace from the freshly constructed pool. -/
def runPool (tr : List PoolEvent) : Option PoolState :=
  foldPool initPool tr

/-- Structural validity of a trace: every `release` is the exit of an
acquire context previously entered (the decrement in `acquire`'s
`finally` can only run for a caller that holds a handle).  `held` counts
the handles currently outstanding. -/
def releaseBalanced : Nat → List PoolEvent → Bool
  | _, [] => true
  | held, PoolEvent.acquireOk :: tr => releaseBalanced (held + 1) tr
  | held, PoolEvent.release :: tr =>
    match held with
    | 0 => false
    | h + 1 => releaseBalanced h tr
  | held, _ :: tr => releaseBalanced held tr

/-- Result of calling `acquire` in a given pool state: the locked section
checks `assert_not_closing` then `assert_not_closed` (src/pylon/service/
bittensor/pool.py lines 124-126). -/
inductive AcquireOutcome where
  | ok
  | errPoolClosing
  | errPoolClosed
deriving DecidableEq, Repr

/-- The assert sequence at the head of `BittensorClientPool.acquire`. -/
def acquireCheck (s : PoolState) : AcquireOutcome :=
  if s.closing_state then AcquireOutcome.errPoolClosing
  else if !s.is_open then AcquireOutcome.errPoolClosed
  else AcquireOutcome.ok

/-! ### Client transport retry loop (src/pylon/_internal/client/abstract.py) -/

/-- What one raw HTTP try produces: a transport-level failure
(`httpx.RequestError`, translated by `_handle_request_error` into
`PylonRequestException`) or an HTTP response with a status code. -/
inductive TryResult where
  | transportError
  | httpResponse (status : Nat)
deriving DecidableEq, Repr

/-- Overall outcome of `AbstractAsyncPylonClient._request`. -/
inductive ReqOutcome where
  | ok (status : Nat)
  | requestExc
  | statusExc (status : Nat)
deriving DecidableEq, Repr

/-- httpx `response.is_success`: `raise_for_status` raises exactly for
statuses outside 2xx. -/
def isSuccessStatus (s : Nat) : Bool :=
  200 ≤ s && s < 300

/-- Embedding of the retry loop in `_request` (src/pylon/_internal/client/
abstract.py lines 58-74) with the tenacity policy built in `__init__`
(lines 18-23): retry only on `PylonRequestException` (transport errors),
`stop_after_attempt` bounds the total number of tries, `reraise=True`
reraises the final exception.  A non-2xx response raises
`PylonHttpStatusException` via `_handle_status_error`, which is not in
the retry predicate and therefore propagates immediately.  `tries i` is
the result of the i-th raw try; the second component of the result is the
number of tries made. -/
def requestAttempts (tries : Nat → TryResult) : Nat → Nat → ReqOutcome × Nat
  | i, 0 => (ReqOutcome.requestExc, i)
  | i, remaining + 1 =>
    match tries i with
    | TryResult.transportError =>
      if remaining = 0 then (ReqOutcome.requestExc, i + 1)
      else requestAttempts tries (i + 1) remaining
    | TryResult.httpResponse s =>
      if isSuccessStatus s then (ReqOutcome.ok s, i + 1)
      else (ReqOutcome.statusExc s, i + 1)

/-- The `_request` loop with a given `stop_after_attempt` (default 3). -/
def pylonRequest (tries : Nat → TryResult) (stop_after_attempt : Nat) :
    ReqOutcome × Nat :=
  requestAttempts tries 0 stop_after_attempt

/-! ### token_required decorator (src/pylon/service/api.py lines 30-63) -/

/-- Accumulator-based splitter over characters: maximal runs of
non-whitespace characters, in order. -/
def splitWs : List Char → List Char → List String
  | acc, [] => if acc.isEmpty then [] else [String.mk acc.reverse]
  | acc, ch :: rest =>
    if ch.isWhitespace then
      if acc.isEmpty then splitWs [] rest
      else String.mk acc.reverse :: splitWs [] rest
    else splitWs (ch :: acc) rest

/-- Python `header.strip().split()`: split on runs of whitespace,
discarding empty pieces. -/
def pySplitWhitespace (s : String) : List String :=
  splitWs [] s.data

/-- Python `str.lower()` (ASCII range, which covers the scheme
comparison). -/
def pyToLower (s : String) : String :=
  String.mk (s.data.map Char.toLower)

/-- What the decorated endpoint returns: an early `Response(status,
detail)` from the decorator, or the wrapped handler running. -/
inductive AuthResponse where
  | response (status : Nat) (detail : String)
  | handler
deriving DecidableEq, Repr

/-- Embedding of `token_required` applied to one request.  `auth_token`
is `settings.auth_token` (Python falsiness of a missing/empty token is
the empty string); `authorization_header` is the request's Authorization
header.  `secrets.compare_digest` is constant-time string equality.
The split pieces contain no whitespace, so `parts[1].strip()` is the
identity and is omitted. -/
def token_required (auth_token : String) (authorization_header : Option String) :
    AuthResponse :=
  if auth_token = "" then AuthResponse.response 500 "Token auth not configured"
  else
    match authorization_header with
    | none => AuthResponse.response 401 "Auth token required"
    | some auth_header =>
      match pySplitWhitespace auth_header with
      | [scheme, provided_token] =>
        if pyToLower scheme ≠ "bearer" then
          AuthResponse.response 401 "Invalid auth token"
        else if provided_token = "" ∨ provided_token ≠ auth_token then
          AuthResponse.response 401 "Invalid auth token"
        else
          AuthResponse.handler
      | _ => AuthResponse.response 401 "Invalid auth token"

/-! ### Weight store (src/app/db.py) -/

/-- A row of the `weights` table.  Weights are embedded as Rat: the
claims only involve the exact sums the store performs. -/
structure WeightRow where
  hotkey : String
  epoch : Int
  weight : Rat
deriving DecidableEq, Repr

/-- Embedding of `_get_weight`: the first row matching `(hotkey, epoch)`
in the table, in insertion order. -/
def dbGetWeight (db : List WeightRow) (hotkey : String) (epoch : Int) :
    Option WeightRow :=
  db.find? (fun w => w.hotkey == hotkey && w.epoch == epoch)

/-- Apply `f` to the weight of the first row matching `(hotkey, epoch)`
(SQLAlchemy mutates the fetched row in place). -/
def dbUpdateFirst (db : List WeightRow) (hotkey : String) (epoch : Int)
    (f : Rat → Rat) : List WeightRow :=
  match db with
  | [] => []
  | w :: rest =>
    if w.hotkey == hotkey && w.epoch == epoch then
      { w with weight := f w.weight } :: rest
    else
      w :: dbUpdateFirst rest hotkey epoch f

/-- Embedding of `set_weight` (src/app/db.py lines 48-56): overwrite the
existing row, else insert a new one. -/
def set_weight (db : List WeightRow) (hotkey : String) (weight : Rat)
    (epoch : Int) : List WeightRow :=
  match dbGetWeight db hotkey epoch with
  | some _ => dbUpdateFirst db hotkey epoch (fun _ => weight)
  | none => db ++ [⟨hotkey, epoch, weight⟩]

/-- Embedding of `update_weight` (src/app/db.py lines 59-74): add `delta`
to the existing row's weight, else insert a row with weight `delta`;
returns the new table and the new weight value. -/
def update_weight (db : List WeightRow) (hotkey : String) (delta : Rat)
    (epoch : Int) : List WeightRow × Rat :=
  match dbGetWeight db hotkey epoch with
  | some w => (dbUpdateFirst db hotkey epoch (fun x => x + delta), w.weight + delta)
  | none => (db ++ [⟨hotkey, epoch, delta⟩], delta)

/-! ### Mock pylon client (src/pylon/_internal/client/mock.py) -/

/-- The programmable behaviors, as instances: `WorkNormally` returns
`Response(codes.OK)`, the other two raise their pylon exception.  All
three record the request's `request_args()` before acting. -/
inductive MockBehavior where
  | workNormally
  | raiseRequestError (msg : String)
  | raiseHttpStatusError (msg : String) (status : Nat)
deriving DecidableEq, Repr

/-- What applying a behavior to a request produces. -/
inductive MockOutcome where
  | response (status : Nat)
  | requestExc (msg : String)
  | httpStatusExc (msg : String) (status : Nat)
deriving DecidableEq, Repr

/-- Result of `await behavior(self, request)` for each behavior class. -/
def applyBehavior : MockBehavior → MockOutcome
  | MockBehavior.workNormally => MockOutcome.response 200
  | MockBehavior.raiseRequestError msg => MockOutcome.requestExc msg
  | MockBehavior.raiseHttpStatusError msg status =>
    MockOutcome.httpStatusExc msg status

/-- State of a `MockAsyncPylonClient`.  `Req` stands for the value of
`request.request_args()` of a `PylonRequest`; the mock stores these
verbatim in `requests_made`. -/
structure MockClient (Req : Type) where
  last_behavior : Option MockBehavior
  behavior : List MockBehavior
  requests_made : List Req

/-- Embedding of `MockAsyncPylonClient.request` (src/pylon/_internal/
client/mock.py lines 26-29): pop the front behavior into `last_behavior`
while the list is non-empty, then apply `last_behavior`.  `none` as the
outcome embeds calling `None` (a fresh client whose list was empty and
never held an applicable behavior); applying a behavior records the
request. -/
def mockRequest {Req : Type} (c : MockClient Req) (req : Req) :
    MockClient Req × Option MockOutcome :=
  let popped :=
    match c.behavior with
    | [] => (c.last_behavior, ([] : List MockBehavior))
    | b :: bs => (some b, bs)
  match popped with
  | (none, rest) => ({ c with behavior := rest }, none)
  | (some b, rest) =>
    ({ last_behavior := some b, behavior := rest,
       requests_made := c.requests_made ++ [req] },
     some (applyBehavior b))

/-- Run a list of requests through the mock client, collecting the
outcomes in order. -/
def runMockRequests {Req : Type} (c : MockClient Req) :
    List Req → MockClient Req × List (Option MockOutcome)
  | [] => (c, [])
  | r :: rs =>
    let step := mockRequest c r
    let rest := runMockRequests step.1 rs
    (rest.1, step.2 :: rest.2)

/-- The behavior selected for the i-th request of a client programmed
with list `bs`: behaviors are consumed from the front, and after
exhaustion the last one keeps being applied. -/
def behaviorAt (bs : List MockBehavior) (i : Nat) : MockBehavior :=
  bs.getD (min i (bs.length - 1)) MockBehavior.workNormally

/-! ## Lemmas about the epoch calculator -/

theorem epoch_width (b n t : Int) :
    (get_epoch_containing_block b n t).epoch_end
      = (get_epoch_containing_block b n t).epoch_start + (t + 1) := by
  simp only [get_epoch_containing_block]
  split <;> simp

theorem epoch_contains (b n t : Int) (ht : 0 < t) :
    (get_epoch_containing_block b n t).epoch_start ≤ b ∧
      b < (get_epoch_containing_block b n t).epoch_end := by
  have hr0 : 0 ≤ (b + n + 1) % (t + 1) := Int.emod_nonneg _ (by omega)
  have hr1 : (b + n + 1) % (t + 1) < t + 1 := Int.emod_lt_of_pos _ (by omega)
  simp only [get_epoch_containing_block]
  split <;> constructor <;> simp <;> omega

theorem epoch_start_emod (b n t : Int) (ht : 0 < t) :
    ((get_epoch_containing_block b n t).epoch_start + n + 1) % (t + 1) = t := by
  have hq := Int.ediv_add_emod (b + n + 1) (t + 1)
  have hr0 : 0 ≤ (b + n + 1) % (t + 1) := Int.emod_nonneg _ (by omega)
  have hr1 : (b + n + 1) % (t + 1) < t + 1 := Int.emod_lt_of_pos _ (by omega)
  simp only [get_epoch_containing_block]
  split
  · next h =>
    simp only
    have hrt : (b + n + 1) % (t + 1) = t := by omega
    have hx : b + t - (b + n + 1) % (t + 1) + n + 1 = b + n + 1 := by omega
    rw [hx, hrt]
  · next h =>
    simp only
    set q := (b + n + 1) / (t + 1) with hqdef
    set r := (b + n + 1) % (t + 1) with hrdef
    have hx : b + t - r - (t + 1) + n + 1 = t + (t + 1) * (q - 1) := by
      linear_combination -hq
    rw [hx, Int.add_mul_emod_self_left]
    exact Int.emod_eq_of_lt (by omega) (by omega)

theorem epoch_start_fixed (s n t : Int)
    (hs : (s + n + 1) % (t + 1) = t) :
    (get_epoch_containing_block s n t).epoch_start = s := by
  simp only [get_epoch_containing_block, hs]
  split <;> simp_all

theorem epoch_start_ne_of_ge_end (b b0 n t : Int) (ht : 0 < t)
    (hge : (get_epoch_containing_block b0 n t).epoch_end ≤ b) :
    (get_epoch_containing_block b n t).epoch_start
      ≠ (get_epoch_containing_block b0 n t).epoch_start := by
  intro h
  have h1 := epoch_contains b n t ht
  have h2 := epoch_width b n t
  have h3 := epoch_width b0 n t
  omega

/-- C2: for every block b >= 0, netuid >= 0 and tempo > 0,
get_epoch_containing_block(b, netuid, tempo) returns an epoch with
start <= b < end, and it is idempotent: applying the calculator to the
returned start block yields an epoch with the same start. -/
theorem epoch_calculator_correct (b netuid tempo : Int)
    (hb : 0 ≤ b) (hn : 0 ≤ netuid) (ht : 0 < tempo) :
    ((get_epoch_containing_block b netuid tempo).epoch_start ≤ b ∧
      b < (get_epoch_containing_block b netuid tempo).epoch_end) ∧
    (get_epoch_containing_block
        (get_epoch_containing_block b netuid tempo).epoch_start
        netuid tempo).epoch_start
      = (get_epoch_containing_block b netuid tempo).epoch_start :=
  ⟨epoch_contains b netuid tempo ht,
   epoch_start_fixed _ _ _ (epoch_start_emod b netuid tempo ht)⟩

/-- Witness for C2 at block 5, netuid 1, tempo 3. -/
theorem epoch_calculator_correct_witness :
    (0 ≤ (5 : Int) ∧ 0 ≤ (1 : Int) ∧ 0 < (3 : Int)) ∧
    (((get_epoch_containing_block 5 1 3).epoch_start ≤ 5 ∧
        (5 : Int) < (get_epoch_containing_block 5 1 3).epoch_end) ∧
      (get_epoch_containing_block
          (get_epoch_containing_block 5 1 3).epoch_start 1 3).epoch_start
        = (get_epoch_containing_block 5 1 3).epoch_start) :=
  ⟨by decide, epoch_calculator_correct 5 1 3 (by decide) (by decide) (by decide)⟩

/-! ## Lemmas about the ApplyWeights retry loop -/

theorem run_job_loop_tempo_expiry (inp : JobInputs) (v : Nat → Int) (n0 : Int)
    (hreads : ∀ k, inp.reads k = some (v k))
    (hfail : ∀ i, apply_weights (inp.envs i) inp.weights = (false, []))
    (ht : 0 < inp.tempo) :
    ∀ fuel accIdx att subs sleeps j, j < fuel →
      (get_epoch_containing_block n0 inp.netuid inp.tempo).epoch_end
          ≤ v (accIdx + 2 * j + 1) →
      (run_job_loop inp
          (get_epoch_containing_block n0 inp.netuid inp.tempo).epoch_start
          accIdx att fuel subs sleeps).outcome = JobOutcome.tempoChanged ∧
      (run_job_loop inp
          (get_epoch_containing_block n0 inp.netuid inp.tempo).epoch_start
          accIdx att fuel subs sleeps).submissions = subs ∧
      (run_job_loop inp
          (get_epoch_containing_block n0 inp.netuid inp.tempo).epoch_start
          accIdx att fuel subs sleeps).attemptsMade ≤ att + j := by
  intro fuel
  induction fuel with
  | zero =>
    intro accIdx att subs sleeps j hj
    omega
  | succ f ih =>
    intro accIdx att subs sleeps j hj hend
    simp only [run_job_loop, hreads accIdx, hreads (accIdx + 1)]
    by_cases hcond : (get_epoch_containing_block (v (accIdx + 1)) inp.netuid
        inp.tempo).epoch_start
        = (get_epoch_containing_block n0 inp.netuid inp.tempo).epoch_start
    · have hj0 : j ≠ 0 := by
        intro h0
        subst h0
        have : accIdx + 2 * 0 + 1 = accIdx + 1 := by omega
        rw [this] at hend
        exact epoch_start_ne_of_ge_end _ _ _ _ ht hend hcond
      obtain ⟨j2, rfl⟩ : ∃ j2, j = j2 + 1 := ⟨j - 1, by omega⟩
      rw [if_pos hcond, hfail att]
      simp only [List.append_nil]
      have hend2 : (get_epoch_containing_block n0 inp.netuid inp.tempo).epoch_end
          ≤ v (accIdx + 2 + 2 * j2 + 1) := by
        have : accIdx + 2 + 2 * j2 + 1 = accIdx + 2 * (j2 + 1) + 1 := by omega
        rw [this]
        exact hend
      have h := ih (accIdx + 2) (att + 1) subs
        (sleeps ++ [inp.weights_retry_delay_seconds]) j2 (by omega) hend2
      exact ⟨h.1, h.2.1, by omega⟩
    · rw [if_neg hcond]
      exact ⟨rfl, rfl, by show att ≤ att + j; omega⟩

theorem run_job_loop_sleeps (inp : JobInputs) (initial : Int) :
    ∀ fuel accIdx att subs sleeps,
      ∃ m ≤ fuel,
        (run_job_loop inp initial accIdx att fuel subs sleeps).sleeps
          = sleeps ++ List.replicate m inp.weights_retry_delay_seconds ∧
        (run_job_loop inp initial accIdx att fuel subs sleeps).attemptsMade
          ≤ att + fuel := by
  intro fuel
  induction fuel with
  | zero =>
    intro accIdx att subs sleeps
    exact ⟨0, by omega, by simp [run_job_loop], by simp [run_job_loop]⟩
  | succ f ih =>
    intro accIdx att subs sleeps
    cases h0 : inp.reads accIdx with
    | none =>
      simp only [run_job_loop, h0]
      obtain ⟨m, hm, hs, ha⟩ := ih (accIdx + 1) att subs
        (sleeps ++ [inp.weights_retry_delay_seconds])
      refine ⟨m + 1, by omega, ?_, by omega⟩
      rw [hs, List.append_assoc]
      simp [List.replicate_succ]
    | some n1 =>
      cases h1 : inp.reads (accIdx + 1) with
      | none =>
        simp only [run_job_loop, h0, h1]
        obtain ⟨m, hm, hs, ha⟩ := ih (accIdx + 2) att subs
          (sleeps ++ [inp.weights_retry_delay_seconds])
        refine ⟨m + 1, by omega, ?_, by omega⟩
        rw [hs, List.append_assoc]
        simp [List.replicate_succ]
      | some n2 =>
        simp only [run_job_loop, h0, h1]
        by_cases hcond : (get_epoch_containing_block n2 inp.netuid
            inp.tempo).epoch_start = initial
        · rw [if_pos hcond]
          cases hcall : apply_weights (inp.envs att) inp.weights with
          | mk ok calls =>
            cases ok with
            | true =>
              refine ⟨0, by omega, ?_, ?_⟩
              · show sleeps = sleeps ++ List.replicate 0 inp.weights_retry_delay_seconds
                simp
              · show att + 1 ≤ att + (f + 1)
                omega
            | false =>
              obtain ⟨m, hm, hs, ha⟩ := ih (accIdx + 2) (att + 1) (subs ++ calls)
                (sleeps ++ [inp.weights_retry_delay_seconds])
              refine ⟨m + 1, by omega, ?_, ?_⟩
              · show (run_job_loop inp initial (accIdx + 2) (att + 1) f
                    (subs ++ calls)
                    (sleeps ++ [inp.weights_retry_delay_seconds])).sleeps
                  = sleeps ++ List.replicate (m + 1) inp.weights_retry_delay_seconds
                rw [hs, List.append_assoc]
                simp [List.replicate_succ]
              · show (run_job_loop inp initial (accIdx + 2) (att + 1) f
                    (subs ++ calls)
                    (sleeps ++ [inp.weights_retry_delay_seconds])).attemptsMade
                  ≤ att + (f + 1)
                omega
        · rw [if_neg hcond]
          refine ⟨0, by omega, ?_, ?_⟩
          · show sleeps = sleeps ++ List.replicate 0 inp.weights_retry_delay_seconds
            simp
          · show att ≤ att + (f + 1)
            omega

theorem run_job_loop_success (inp : JobInputs) (v : Nat → Int) (initial : Int)
    (hreads : ∀ k, inp.reads k = some (v k)) :
    ∀ m fuel accIdx att subs sleeps calls, m < fuel →
      (∀ k, k ≤ m →
        (get_epoch_containing_block (v (accIdx + 2 * k + 1)) inp.netuid
            inp.tempo).epoch_start = initial) →
      (∀ i, i < m → apply_weights (inp.envs (att + i)) inp.weights = (false, [])) →
      apply_weights (inp.envs (att + m)) inp.weights = (true, calls) →
      run_job_loop inp initial accIdx att fuel subs sleeps
        = ⟨subs ++ calls,
           sleeps ++ List.replicate m inp.weights_retry_delay_seconds,
           att + m + 1, JobOutcome.succeeded⟩ := by
  intro m
  induction m with
  | zero =>
    intro fuel accIdx att subs sleeps calls hm hsame hfail hsucc
    obtain ⟨f, rfl⟩ : ∃ f, fuel = f + 1 := ⟨fuel - 1, by omega⟩
    simp only [run_job_loop, hreads accIdx, hreads (accIdx + 1)]
    have hc := hsame 0 (by omega)
    have : accIdx + 2 * 0 + 1 = accIdx + 1 := by omega
    rw [this] at hc
    rw [if_pos hc]
    rw [show att + 0 = att from rfl] at hsucc
    rw [hsucc]
    simp

  | succ m2 ih =>
    intro fuel accIdx att subs sleeps calls hm hsame hfail hsucc
    obtain ⟨f, rfl⟩ : ∃ f, fuel = f + 1 := ⟨fuel - 1, by omega⟩
    simp only [run_job_loop, hreads accIdx, hreads (accIdx + 1)]
    have hc := hsame 0 (by omega)
    have hidx : accIdx + 2 * 0 + 1 = accIdx + 1 := by omega
    rw [hidx] at hc
    rw [if_pos hc]
    have hf0 : apply_weights (inp.envs att) inp.weights = (false, []) := by
      have := hfail 0 (by omega)
      rwa [show att + 0 = att from rfl] at this
    rw [hf0]
    simp only [List.append_nil]
    have hrec := ih f (accIdx + 2) (att + 1) subs
      (sleeps ++ [inp.weights_retry_delay_seconds]) calls (by omega)
      (fun k hk => by
        have := hsame (k + 1) (by omega)
        rwa [show accIdx + 2 * (k + 1) + 1 = accIdx + 2 + 2 * k + 1 from by omega]
          at this)
      (fun i hi => by
        have := hfail (i + 1) (by omega)
        rwa [show att + (i + 1) = att + 1 + i from by omega] at this)
      (by rwa [show att + (m2 + 1) = att + 1 + m2 from by omega] at hsucc)
    rw [hrec]
    have hsl : (sleeps ++ [inp.weights_retry_delay_seconds])
        ++ List.replicate m2 inp.weights_retry_delay_seconds
        = sleeps ++ List.replicate (m2 + 1) inp.weights_retry_delay_seconds := by
      rw [List.append_assoc]
      simp [List.replicate_succ]
    have hat : att + 1 + m2 + 1 = att + (m2 + 1) + 1 := by omega
    rw [hsl, hat]

/-- C1: for every run of the ApplyWeights job in which the inner attempts
keep failing (raising before any submission call) and the chain's latest
block — as observed through the accesses of latest_block.number — advances
past the end of the epoch that contained the block observed when the job
started, the job stops retrying and exits without ever calling
commit_weights or set_weights. -/
theorem apply_weights_tempo_expiry (inp : JobInputs) (v : Nat → Int) (j : Nat)
    (hreads : ∀ k, inp.reads k = some (v k))
    (hfail : ∀ i, apply_weights (inp.envs i) inp.weights = (false, []))
    (ht : 0 < inp.tempo)
    (hj : j ≤ inp.weights_retry_attempts)
    (hadv : (get_epoch_containing_block (v 1) inp.netuid inp.tempo).epoch_end
        ≤ v (2 + 2 * j + 1)) :
    (run_job inp).submissions = [] ∧
    (run_job inp).outcome = JobOutcome.tempoChanged ∧
    (run_job inp).attemptsMade ≤ j := by
  have h := run_job_loop_tempo_expiry inp v (v 1) hreads hfail ht
    (inp.weights_retry_attempts + 1) 2 0 [] [] j (by omega) hadv
  simp only [run_job, hreads 0, hreads 1]
  exact ⟨h.2.1, h.1, by have := h.2.2; omega⟩

/-- Witness for C1 on concrete inputs: the chain jumps from block 0 to
block 100 before the first attempt, so the job exits with no submissions
and no attempts. -/
theorem apply_weights_tempo_expiry_witness :
    (run_job jobInputsTempoExpiry).submissions = [] ∧
    (run_job jobInputsTempoExpiry).outcome = JobOutcome.tempoChanged ∧
    (run_job jobInputsTempoExpiry).attemptsMade ≤ 0 :=
  apply_weights_tempo_expiry jobInputsTempoExpiry
    (fun k => if k < 3 then 0 else 100) 0
    (fun _ => rfl) (fun _ => rfl) (by decide) (by decide) (by decide)

/-- C5 counterexample: with weights_retry_delay_seconds = 1 and three
consecutive failed attempts, the job sleeps [1, 1, 1] (a constant delay),
while the claimed policy (doubling after each failure up to 10 times the
initial value) predicts [1, 2, 4]. -/
theorem retry_backoff_counterexample :
    (run_job jobInputsConstFail).sleeps = [1, 1, 1] ∧
    specClaimedSleeps 1 3 = [1, 2, 4] ∧
    (run_job jobInputsConstFail).sleeps ≠ specClaimedSleeps 1 3 := by
  refine ⟨?_, by decide, ?_⟩ <;> decide

/-- C5 amended: in the ApplyWeights job every failed inner attempt is
followed by a sleep of exactly weights_retry_delay_seconds (the delay is
constant; it never doubles), and at most weights_retry_attempts + 1
attempts are made in total.  (The 120-second asyncio timeout in the
source wraps the whole retry loop, not each individual attempt.) -/
theorem retry_policy_amended (inp : JobInputs) :
    (∀ x ∈ (run_job inp).sleeps, x = inp.weights_retry_delay_seconds) ∧
    (run_job inp).sleeps.length ≤ inp.weights_retry_attempts + 1 ∧
    (run_job inp).attemptsMade ≤ inp.weights_retry_attempts + 1 := by
  cases h0 : inp.reads 0 with
  | none =>
    simp only [run_job, h0]
    exact ⟨by simp, by simp, by simp⟩
  | some n0 =>
    cases h1 : inp.reads 1 with
    | none =>
      simp only [run_job, h0, h1]
      exact ⟨by simp, by simp, by simp⟩
    | some n1 =>
      simp only [run_job, h0, h1]
      obtain ⟨m, hm, hs, ha⟩ := run_job_loop_sleeps inp
        (get_epoch_containing_block n1 inp.netuid inp.tempo).epoch_start
        (inp.weights_retry_attempts + 1) 2 0 [] []
      rw [hs]
      refine ⟨?_, ?_, by omega⟩
      · intro x hx
        simp only [List.nil_append] at hx
        exact List.eq_of_mem_replicate hx
      · simp only [List.nil_append, List.length_replicate]
        omega

/-- C6: each ApplyWeights inner attempt reads
commit_reveal_weights_enabled from the hyperparameters fetched at the
latest block (absent treated as false, a falsy DISABLED value treated as
false); when false it calls set_weights and not commit_weights, when true
commit_weights and not set_weights, and over the whole job exactly one
submission call is made, on the first successful attempt. -/
theorem apply_weights_commit_reveal (inp : JobInputs) (v : Nat → Int) (m : Nat)
    (hp : List (String × HPValue)) (ns : List PsNeuron)
    (hreads : ∀ k, inp.reads k = some (v k))
    (hsame : ∀ k, (get_epoch_containing_block (v k) inp.netuid
        inp.tempo).epoch_start
      = (get_epoch_containing_block (v 1) inp.netuid inp.tempo).epoch_start)
    (hm : m ≤ inp.weights_retry_attempts)
    (hfail : ∀ i, i < m → apply_weights (inp.envs i) inp.weights = (false, []))
    (hsucc : inp.envs m = ⟨some hp, some ns, true⟩) :
    (run_job inp).outcome = JobOutcome.succeeded ∧
    (run_job inp).submissions
      = [if commitRevealEnabled hp then SubmitCall.commit else SubmitCall.set] ∧
    (run_job inp).submissions.length = 1 ∧
    (run_job inp).attemptsMade = m + 1 ∧
    (commitRevealEnabled hp = true →
      (run_job inp).submissions = [SubmitCall.commit]) ∧
    (commitRevealEnabled hp = false →
      (run_job inp).submissions = [SubmitCall.set]) ∧
    (∀ hp2 : List (String × HPValue),
      hpGet hp2 "commit_reveal_weights_enabled" = none ∨
        hpGet hp2 "commit_reveal_weights_enabled" = some (HPValue.bool false) ∨
        hpGet hp2 "commit_reveal_weights_enabled" = some (HPValue.int 0) →
      commitRevealEnabled hp2 = false) := by
  have happly : apply_weights (inp.envs m) inp.weights
      = (true, [if commitRevealEnabled hp then SubmitCall.commit
                else SubmitCall.set]) := by
    rw [hsucc]
    simp only [apply_weights]
    by_cases h : commitRevealEnabled hp <;> simp [h]
  have hloop := run_job_loop_success inp v
    (get_epoch_containing_block (v 1) inp.netuid inp.tempo).epoch_start hreads
    m (inp.weights_retry_attempts + 1) 2 0 [] []
    [if commitRevealEnabled hp then SubmitCall.commit else SubmitCall.set]
    (by omega)
    (fun k _ => hsame (2 + 2 * k + 1))
    (fun i hi => by
      have := hfail i hi
      rwa [show (0 : Nat) + i = i from by omega])
    (by rwa [show (0 : Nat) + m = m from by omega])
  have hrun : run_job inp
      = ⟨[if commitRevealEnabled hp then SubmitCall.commit else SubmitCall.set],
         List.replicate m inp.weights_retry_delay_seconds, m + 1,
         JobOutcome.succeeded⟩ := by
    simp only [run_job, hreads 0, hreads 1, hloop]
    simp
  rw [hrun]
  refine ⟨rfl, rfl, rfl, rfl, ?_, ?_, ?_⟩
  · intro h
    simp [h]
  · intro h
    simp [h]
  · intro hp2 h
    rcases h with h | h | h <;>
      simp [commitRevealEnabled, h, HPValue.truthy]

/-- Witness for C6 on concrete inputs: the first attempt fails, the
second succeeds with commit-reveal enabled, and the job makes exactly one
submission, a commit. -/
theorem apply_weights_commit_reveal_witness :
    (run_job jobInputsCommitSuccess).outcome = JobOutcome.succeeded ∧
    (run_job jobInputsCommitSuccess).submissions
      = [if commitRevealEnabled hpCommitEnabled then SubmitCall.commit
         else SubmitCall.set] ∧
    (run_job jobInputsCommitSuccess).submissions.length = 1 ∧
    (run_job jobInputsCommitSuccess).attemptsMade = 1 + 1 ∧
    (commitRevealEnabled hpCommitEnabled = true →
      (run_job jobInputsCommitSuccess).submissions = [SubmitCall.commit]) ∧
    (commitRevealEnabled hpCommitEnabled = false →
      (run_job jobInputsCommitSuccess).submissions = [SubmitCall.set]) ∧
    (∀ hp2 : List (String × HPValue),
      hpGet hp2 "commit_reveal_weights_enabled" = none ∨
        hpGet hp2 "commit_reveal_weights_enabled" = some (HPValue.bool false) ∨
        hpGet hp2 "commit_reveal_weights_enabled" = some (HPValue.int 0) →
      commitRevealEnabled hp2 = false) :=
  apply_weights_commit_reveal jobInputsCommitSuccess (fun _ => 0) 1
    hpCommitEnabled []
    (fun _ => rfl) (fun _ => rfl) (by decide)
    (fun i hi => by
      have : i = 0 := by omega
      subst this
      rfl)
    rfl

/-! ## Archive fallback -/

/-- C3: for every falling-back read operation invoked with a block: if
latest.number minus block.number exceeds archive_blocks_cutoff, the call
is routed directly to the archive client and the main client is not used
for the operation; otherwise the operation is tried on the main client,
and exactly when that raises UnknownBlock it is retried exactly once on
the archive client. -/
theorem archive_fallback_routing {α : Type} (op : FallbackOp)
    (cutoff latest bn : Int) (mr ar : Except ChainError α) :
    (latest - bn > cutoff →
      archive_fallback op cutoff latest bn mr ar
        = ([(ClientId.archive, op)], ar)) ∧
    (latest - bn ≤ cutoff →
      (∀ v, mr = Except.ok v →
        archive_fallback op cutoff latest bn mr ar
          = ([(ClientId.main, op)], Except.ok v)) ∧
      (mr = Except.error ChainError.unknownBlock →
        archive_fallback op cutoff latest bn mr ar
          = ([(ClientId.main, op), (ClientId.archive, op)], ar)) ∧
      (mr = Except.error ChainError.other →
        archive_fallback op cutoff latest bn mr ar
          = ([(ClientId.main, op)], Except.error ChainError.other)) ∧
      (mr = Except.error ChainError.unknownBlock →
        (archive_fallback op cutoff latest bn mr ar).1.count
          (ClientId.archive, op) = 1) ∧
      (mr ≠ Except.error ChainError.unknownBlock →
        (archive_fallback op cutoff latest bn mr ar).1.count
          (ClientId.archive, op) = 0) ∧
      (archive_fallback op cutoff latest bn mr ar).1.count (ClientId.main, op)
        = 1) := by
  constructor
  · intro h
    simp [archive_fallback, h]
  · intro h
    have hns : ¬ latest - bn > cutoff := by omega
    refine ⟨?_, ?_, ?_, ?_, ?_, ?_⟩
    · intro v hv
      simp only [archive_fallback, if_neg hns, hv]
    · intro hv
      simp only [archive_fallback, if_neg hns, hv]
    · intro hv
      simp only [archive_fallback, if_neg hns, hv]
    · intro hv
      simp only [archive_fallback, if_neg hns, hv]
      simp [List.count_cons]
    · intro hv
      cases mr with
      | ok v =>
        simp only [archive_fallback, if_neg hns]
        simp [List.count_cons]
      | error e =>
        cases e with
        | unknownBlock => exact absurd rfl hv
        | other =>
          simp only [archive_fallback, if_neg hns]
          simp [List.count_cons]
    · cases mr with
      | ok v =>
        simp only [archive_fallback, if_neg hns]
        simp [List.count_cons]
      | error e =>
        cases e <;> simp only [archive_fallback, if_neg hns] <;>
          simp [List.count_cons]

/-- Witness for C3: a stale block (cutoff 300, latest 500, block 199)
goes straight to the archive; a recent block (450) whose main call raises
UnknownBlock is retried once on the archive. -/
theorem archive_fallback_routing_witness :
    archive_fallback FallbackOp.getNeurons 300 500 199
        (Except.ok 7) (Except.ok (42 : Nat))
      = ([(ClientId.archive, FallbackOp.getNeurons)], Except.ok 42) ∧
    archive_fallback FallbackOp.getNeurons 300 500 450
        (Except.error ChainError.unknownBlock) (Except.ok (42 : Nat))
      = ([(ClientId.main, FallbackOp.getNeurons),
          (ClientId.archive, FallbackOp.getNeurons)], Except.ok 42) :=
  ⟨(archive_fallback_routing FallbackOp.getNeurons 300 500 199
      (Except.ok 7) (Except.ok 42)).1 (by decide),
   ((archive_fallback_routing FallbackOp.getNeurons 300 500 450
      (Except.error ChainError.unknownBlock) (Except.ok 42)).2
      (by decide)).2.1 rfl⟩

/-! ## Client pool -/

theorem poolStep_counter (s s2 : PoolState) (e : PoolEvent)
    (h : poolStep s e = some s2) :
    s2.acquire_counter = s.acquire_counter
      + (if e = PoolEvent.acquireOk then 1 else 0)
      - (if e = PoolEvent.release then 1 else 0) := by
  cases e <;> simp only [poolStep] at h <;> (try split at h) <;>
    (try cases h) <;> simp_all <;> omega

theorem foldPool_counter : ∀ (tr : List PoolEvent) (s s2 : PoolState),
    foldPool s tr = some s2 →
    s2.acquire_counter = s.acquire_counter
      + (tr.count PoolEvent.acquireOk : Int)
      - (tr.count PoolEvent.release : Int) := by
  intro tr
  induction tr with
  | nil =>
    intro s s2 h
    simp only [foldPool, Option.some.injEq] at h
    subst h
    simp
  | cons e tr ih =>
    intro s s2 h
    simp only [foldPool] at h
    cases h1 : poolStep s e with
    | none =>
      rw [h1] at h
      simp at h
    | some s1 =>
      rw [h1] at h
      simp only [Option.some_bind] at h
      have hstep := poolStep_counter s s1 e h1
      have hrest := ih s1 s2 h
      rw [hrest, hstep]
      by_cases he1 : e = PoolEvent.acquireOk <;>
        by_cases he2 : e = PoolEvent.release <;>
        simp_all [List.count_cons] <;> push_cast <;> ring

theorem releaseBalanced_count : ∀ (tr : List PoolEvent) (held : Nat),
    releaseBalanced held tr = true →
    tr.count PoolEvent.release ≤ held + tr.count PoolEvent.acquireOk := by
  intro tr
  induction tr with
  | nil =>
    intro held _
    simp
  | cons e tr ih =>
    intro held h
    cases e with
    | acquireOk =>
      simp only [releaseBalanced] at h
      have := ih (held + 1) h
      simp only [List.count_cons]
      simp
      omega
    | release =>
      simp only [releaseBalanced] at h
      cases held with
      | zero => simp at h
      | succ h2 =>
        have := ih h2 h
        simp only [List.count_cons]
        simp
        omega
    | openPool =>
      simp only [releaseBalanced] at h
      have := ih held h
      simp only [List.count_cons]
      simp
      omega
    | closeBegin =>
      simp only [releaseBalanced] at h
      have := ih held h
      simp only [List.count_cons]
      simp
      omega
    | closeFinish =>
      simp only [releaseBalanced] at h
      have := ih held h
      simp only [List.count_cons]
      simp
      omega

/-- C4: for the client pool, in every reachable state the count of
outstanding acquisitions is never negative; close() does not return while
the count is non-zero; and acquire() called while the pool is closing
raises PoolClosing (and PoolClosed when the pool is closed). -/
theorem pool_invariants :
    (∀ (tr : List PoolEvent) (s : PoolState),
      releaseBalanced 0 tr = true → runPool tr = some s →
      0 ≤ s.acquire_counter) ∧
    (∀ s s2 : PoolState, poolStep s PoolEvent.closeFinish = some s2 →
      s.acquire_counter = 0) ∧
    (∀ s : PoolState, s.closing_state = true →
      acquireCheck s = AcquireOutcome.errPoolClosing) ∧
    (∀ s : PoolState, s.closing_state = false → s.is_open = false →
      acquireCheck s = AcquireOutcome.errPoolClosed) := by
  refine ⟨?_, ?_, ?_, ?_⟩
  · intro tr s hbal hrun
    have h1 := foldPool_counter tr initPool s hrun
    have h2 := releaseBalanced_count tr 0 hbal
    simp only [initPool] at h1
    omega
  · intro s s2 h
    simp only [poolStep] at h
    split at h
    · next hg =>
      have := (Bool.and_eq_true _ _).mp hg
      have h2 := this.2
      simpa using h2
    · simp at h
  · intro s h
    simp [acquireCheck, h]
  · intro s h1 h2
    simp [acquireCheck, h1, h2]

/-- Witness for C4: a balanced trace (open, acquire, release) ends with a
non-negative counter; closeFinish from a closing state with counter 0; and
the two acquire error cases on concrete states. -/
theorem pool_invariants_witness :
    0 ≤ (PoolState.mk true false 0).acquire_counter ∧
    (PoolState.mk true true 0).acquire_counter = 0 ∧
    acquireCheck (PoolState.mk true true 0) = AcquireOutcome.errPoolClosing ∧
    acquireCheck (PoolState.mk false false 3) = AcquireOutcome.errPoolClosed :=
  ⟨pool_invariants.1 [PoolEvent.openPool, PoolEvent.acquireOk, PoolEvent.release]
      (PoolState.mk true false 0) (by decide) (by decide),
   pool_invariants.2.1 (PoolState.mk true true 0)
      (PoolState.mk false false 0) (by decide),
   pool_invariants.2.2.1 (PoolState.mk true true 0) rfl,
   pool_invariants.2.2.2 (PoolState.mk false false 3) rfl rfl⟩

/-! ## Transport retry loop -/

theorem requestAttempts_tries_le : ∀ (rem i : Nat) (tries : Nat → TryResult),
    (requestAttempts tries i rem).2 ≤ i + rem := by
  intro rem
  induction rem with
  | zero =>
    intro i tries
    simp [requestAttempts]
  | succ r ih =>
    intro i tries
    cases htry : tries i with
    | transportError =>
      simp only [requestAttempts, htry]
      by_cases hr : r = 0
      · rw [if_pos hr]
        show i + 1 ≤ i + (r + 1)
        omega
      · rw [if_neg hr]
        have := ih (i + 1) tries
        show (requestAttempts tries (i + 1) r).2 ≤ i + (r + 1)
        omega
    | httpResponse s =>
      simp only [requestAttempts, htry]
      split <;> (show i + 1 ≤ i + (r + 1); omega)

theorem requestAttempts_status :
    ∀ (rem i j : Nat) (tries : Nat → TryResult) (s : Nat),
    i ≤ j → j < i + rem →
    (∀ k, i ≤ k → k < j → tries k = TryResult.transportError) →
    tries j = TryResult.httpResponse s →
    requestAttempts tries i rem
      = (if isSuccessStatus s then ReqOutcome.ok s else ReqOutcome.statusExc s,
         j + 1) := by
  intro rem
  induction rem with
  | zero =>
    intro i j tries s h1 h2
    omega
  | succ r ih =>
    intro i j tries s h1 h2 hpre hj
    by_cases hij : j = i
    · subst hij
      simp only [requestAttempts, hj]
      by_cases hs2 : isSuccessStatus s <;> simp [hs2]
    · have hlt : i < j := by omega
      simp only [requestAttempts, hpre i (le_refl i) hlt]
      have hr : r ≠ 0 := by omega
      rw [if_neg hr]
      exact ih (i + 1) j tries s (by omega) (by omega)
        (fun k hk1 hk2 => hpre k (by omega) hk2) hj

theorem requestAttempts_allFail : ∀ (rem i : Nat) (tries : Nat → TryResult),
    1 ≤ rem →
    (∀ k, tries k = TryResult.transportError) →
    requestAttempts tries i rem = (ReqOutcome.requestExc, i + rem) := by
  intro rem
  induction rem with
  | zero =>
    intro i tries h
    omega
  | succ r ih =>
    intro i tries _ hall
    simp only [requestAttempts, hall i]
    by_cases hr : r = 0
    · subst hr
      simp
    · rw [if_neg hr]
      rw [ih (i + 1) tries (by omega) hall]
      have : i + 1 + r = i + (r + 1) := by omega
      rw [this]

/-- C7: the client transport layer makes at most stop_after_attempt tries
of a request, retrying only when a try fails with a transport error and
never on a non-2xx HTTP response; after uninterrupted transport failures
a 2xx response is returned, exhausting all tries with transport failures
raises PylonRequestException, and a non-2xx response raises
PylonHttpStatusException carrying the status, without any further try. -/
theorem transport_retry_policy (tries : Nat → TryResult) (stop s j : Nat) :
    ((pylonRequest tries stop).2 ≤ stop) ∧
    (j < stop → (∀ k, k < j → tries k = TryResult.transportError) →
      tries j = TryResult.httpResponse s → isSuccessStatus s = false →
      pylonRequest tries stop = (ReqOutcome.statusExc s, j + 1)) ∧
    (j < stop → (∀ k, k < j → tries k = TryResult.transportError) →
      tries j = TryResult.httpResponse s → isSuccessStatus s = true →
      pylonRequest tries stop = (ReqOutcome.ok s, j + 1)) ∧
    (1 ≤ stop → (∀ k, tries k = TryResult.transportError) →
      pylonRequest tries stop = (ReqOutcome.requestExc, stop)) := by
  refine ⟨?_, ?_, ?_, ?_⟩
  · have := requestAttempts_tries_le stop 0 tries
    simpa [pylonRequest] using this
  · intro hj hpre hcur hfailst
    have := requestAttempts_status stop 0 j tries s (by omega) (by omega)
      (fun k _ hk2 => hpre k hk2) hcur
    rw [pylonRequest, this, hfailst]
    simp
  · intro hj hpre hcur hokst
    have := requestAttempts_status stop 0 j tries s (by omega) (by omega)
      (fun k _ hk2 => hpre k hk2) hcur
    rw [pylonRequest, this, hokst]
    simp
  · intro hstop hall
    have := requestAttempts_allFail stop 0 tries hstop hall
    rw [pylonRequest, this]
    simp

/-- Witness for C7 with stop_after_attempt = 3: two transport failures
then a 200 succeed on the third try; three transport failures raise the
request exception after three tries; an immediate 404 raises the status
exception after one try. -/
theorem transport_retry_policy_witness :
    pylonRequest (fun i => if i < 2 then TryResult.transportError
        else TryResult.httpResponse 200) 3 = (ReqOutcome.ok 200, 3) ∧
    pylonRequest (fun _ => TryResult.transportError) 3
      = (ReqOutcome.requestExc, 3) ∧
    pylonRequest (fun _ => TryResult.httpResponse 404) 3
      = (ReqOutcome.statusExc 404, 1) :=
  ⟨(transport_retry_policy
      (fun i => if i < 2 then TryResult.transportError
        else TryResult.httpResponse 200) 3 200 2).2.2.1
      (by decide) (fun k hk => by rw [if_pos hk]) (by decide) (by decide),
   (transport_retry_policy (fun _ => TryResult.transportError) 3 200 0).2.2.2
      (by decide) (fun _ => rfl),
   (transport_retry_policy (fun _ => TryResult.httpResponse 404) 3 404 0).2.1
      (by decide) (fun k hk => absurd hk (by omega)) rfl (by decide)⟩

/-! ## token_required decorator -/

/-- C8: for every request guarded by token_required: with no configured
token the response is 500 "Token auth not configured"; without an
Authorization header it is 401 "Auth token required"; with a malformed
header or a non-matching bearer token it is 401 "Invalid auth token"; the
wrapped handler runs exactly when the bearer token matches, the scheme
compared case-insensitively. -/
theorem token_required_auth (t hdr : String) :
    (∀ h : Option String,
      token_required "" h = AuthResponse.response 500 "Token auth not configured") ∧
    (t ≠ "" →
      token_required t none = AuthResponse.response 401 "Auth token required") ∧
    (t ≠ "" →
      (∀ scheme tok, pySplitWhitespace hdr = [scheme, tok] →
        pyToLower scheme ≠ "bearer" ∨ tok ≠ t) →
      token_required t (some hdr) = AuthResponse.response 401 "Invalid auth token") ∧
    (t ≠ "" →
      (token_required t (some hdr) = AuthResponse.handler ↔
        ∃ scheme, pySplitWhitespace hdr = [scheme, t] ∧
          pyToLower scheme = "bearer")) := by
  refine ⟨?_, ?_, ?_, ?_⟩
  · intro h
    simp [token_required]
  · intro ht
    simp [token_required, ht]
  · intro ht hmal
    simp only [token_required, if_neg ht]
    rcases hsplit : pySplitWhitespace hdr with _ | ⟨a, _ | ⟨b, _ | ⟨c, rest⟩⟩⟩
    · rfl
    · rfl
    · show (if pyToLower a ≠ "bearer" then AuthResponse.response 401 "Invalid auth token"
          else if b = "" ∨ b ≠ t then AuthResponse.response 401 "Invalid auth token"
          else AuthResponse.handler) = AuthResponse.response 401 "Invalid auth token"
      rcases hmal a b hsplit with hbad | hbad
      · rw [if_pos hbad]
      · by_cases hsch : pyToLower a ≠ "bearer"
        · rw [if_pos hsch]
        · rw [if_neg hsch, if_pos (Or.inr hbad)]
    · rfl
  · intro ht
    have hred : token_required t (some hdr)
        = (match pySplitWhitespace hdr with
           | [scheme, provided_token] =>
             if pyToLower scheme ≠ "bearer" then
               AuthResponse.response 401 "Invalid auth token"
             else if provided_token = "" ∨ provided_token ≠ t then
               AuthResponse.response 401 "Invalid auth token"
             else AuthResponse.handler
           | _ => AuthResponse.response 401 "Invalid auth token") := by
      have h0 : token_required t (some hdr)
          = if t = "" then AuthResponse.response 500 "Token auth not configured"
            else (match pySplitWhitespace hdr with
              | [scheme, provided_token] =>
                if pyToLower scheme ≠ "bearer" then
                  AuthResponse.response 401 "Invalid auth token"
                else if provided_token = "" ∨ provided_token ≠ t then
                  AuthResponse.response 401 "Invalid auth token"
                else AuthResponse.handler
              | _ => AuthResponse.response 401 "Invalid auth token") := rfl
      rw [h0, if_neg ht]
    constructor
    · intro hrun
      rw [hred] at hrun
      rcases hsplit : pySplitWhitespace hdr with _ | ⟨a, _ | ⟨b, _ | ⟨c, rest⟩⟩⟩ <;>
        rw [hsplit] at hrun
      · simp at hrun
      · simp at hrun
      · change (if pyToLower a ≠ "bearer" then
              AuthResponse.response 401 "Invalid auth token"
            else if b = "" ∨ b ≠ t then
              AuthResponse.response 401 "Invalid auth token"
            else AuthResponse.handler) = AuthResponse.handler at hrun
        by_cases hsch : pyToLower a ≠ "bearer"
        · rw [if_pos hsch] at hrun
          simp at hrun
        · rw [if_neg hsch] at hrun
          by_cases htok : b = "" ∨ b ≠ t
          · rw [if_pos htok] at hrun
            simp at hrun
          · push_neg at htok
            refine ⟨a, ?_, ?_⟩
            · rw [← htok.2]
            · by_contra hc
              exact hsch hc
      · simp at hrun
    · rintro ⟨scheme, hsp, hlow⟩
      rw [hred, hsp]
      change (if pyToLower scheme ≠ "bearer" then
            AuthResponse.response 401 "Invalid auth token"
          else if t = "" ∨ t ≠ t then
            AuthResponse.response 401 "Invalid auth token"
          else AuthResponse.handler) = AuthResponse.handler
      rw [if_neg (by simp [hlow]), if_neg (by simp [ht])]

/-- Witness for C8: a configured token "t" with no header gives the 401
"Auth token required" response, and an uppercase BEARER scheme with the
right token reaches the handler. -/
theorem token_required_auth_witness :
    token_required "t" none = AuthResponse.response 401 "Auth token required" ∧
    token_required "t" (some "BEARER t") = AuthResponse.handler :=
  ⟨(token_required_auth "t" "BEARER t").2.1 (by decide),
   ((token_required_auth "t" "BEARER t").2.2.2 (by decide)).mpr
     ⟨"BEARER", by decide, by decide⟩⟩

/-! ## Weight store -/

theorem dbGetWeight_cons_pos (x : WeightRow) (xs : List WeightRow)
    (h : String) (e : Int) (hx : (x.hotkey == h && x.epoch == e) = true) :
    dbGetWeight (x :: xs) h e = some x := by
  rw [dbGetWeight]
  exact List.find?_cons_of_pos xs hx

theorem dbGetWeight_cons_neg (x : WeightRow) (xs : List WeightRow)
    (h : String) (e : Int) (hx : ¬ (x.hotkey == h && x.epoch == e) = true) :
    dbGetWeight (x :: xs) h e = dbGetWeight xs h e := by
  rw [dbGetWeight, dbGetWeight]
  exact List.find?_cons_of_neg xs hx

theorem dbGetWeight_append_self (db : List WeightRow) (h : String) (e : Int)
    (hn : dbGetWeight db h e = none) (w : Rat) :
    dbGetWeight (db ++ [⟨h, e, w⟩]) h e = some ⟨h, e, w⟩ := by
  induction db with
  | nil =>
    simp [dbGetWeight]
  | cons x xs ih =>
    by_cases hx : (x.hotkey == h && x.epoch == e) = true
    · exfalso
      rw [dbGetWeight_cons_pos x xs h e hx] at hn
      simp at hn
    · rw [dbGetWeight_cons_neg x xs h e hx] at hn
      rw [List.cons_append, dbGetWeight_cons_neg x _ h e hx]
      exact ih hn

theorem dbGetWeight_updateFirst (db : List WeightRow) (h : String) (e : Int)
    (f : Rat → Rat) (w : WeightRow) (hw : dbGetWeight db h e = some w) :
    dbGetWeight (dbUpdateFirst db h e f) h e
      = some { w with weight := f w.weight } := by
  induction db with
  | nil =>
    simp [dbGetWeight] at hw
  | cons x xs ih =>
    by_cases hx : (x.hotkey == h && x.epoch == e) = true
    · rw [dbGetWeight_cons_pos x xs h e hx] at hw
      injection hw with hw
      subst hw
      rw [dbUpdateFirst, if_pos hx]
      exact dbGetWeight_cons_pos _ xs h e hx
    · rw [dbGetWeight_cons_neg x xs h e hx] at hw
      rw [dbUpdateFirst, if_neg hx, dbGetWeight_cons_neg x _ h e hx]
      exact ih hw

/-- C9: for the weight store, starting with no entry for (h, e):
add(h, d1, e) followed by add(h, d2, e) leaves the stored weight equal to
d1 + d2, with each add returning the new stored value (the first add
initializes to its delta); and set(h, w, e) followed by add(h, d, e)
leaves the stored weight equal to w + d. -/
theorem weight_store_set_add (db : List WeightRow) (h : String) (e : Int)
    (d1 d2 w d : Rat) (hn : dbGetWeight db h e = none) :
    (update_weight db h d1 e).2 = d1 ∧
    (update_weight (update_weight db h d1 e).1 h d2 e).2 = d1 + d2 ∧
    (dbGetWeight (update_weight (update_weight db h d1 e).1 h d2 e).1 h e).map
        (fun r => r.weight) = some (d1 + d2) ∧
    (update_weight (set_weight db h w e) h d e).2 = w + d ∧
    (dbGetWeight (update_weight (set_weight db h w e) h d e).1 h e).map
        (fun r => r.weight) = some (w + d) := by
  have hstep1 : update_weight db h d1 e = (db ++ [⟨h, e, d1⟩], d1) := by
    rw [update_weight, hn]
  have hget1 : dbGetWeight (db ++ [⟨h, e, d1⟩]) h e = some ⟨h, e, d1⟩ :=
    dbGetWeight_append_self db h e hn d1
  have hstep2 : update_weight (db ++ [⟨h, e, d1⟩]) h d2 e
      = (dbUpdateFirst (db ++ [⟨h, e, d1⟩]) h e (fun x => x + d2), d1 + d2) := by
    rw [update_weight, hget1]
  have hget2 := dbGetWeight_updateFirst (db ++ [⟨h, e, d1⟩]) h e
    (fun x => x + d2) ⟨h, e, d1⟩ hget1
  have hset : set_weight db h w e = db ++ [⟨h, e, w⟩] := by
    rw [set_weight, hn]
  have hgetw : dbGetWeight (db ++ [⟨h, e, w⟩]) h e = some ⟨h, e, w⟩ :=
    dbGetWeight_append_self db h e hn w
  have hstep3 : update_weight (db ++ [⟨h, e, w⟩]) h d e
      = (dbUpdateFirst (db ++ [⟨h, e, w⟩]) h e (fun x => x + d), w + d) := by
    rw [update_weight, hgetw]
  have hget3 := dbGetWeight_updateFirst (db ++ [⟨h, e, w⟩]) h e
    (fun x => x + d) ⟨h, e, w⟩ hgetw
  refine ⟨by rw [hstep1], ?_, ?_, ?_, ?_⟩
  · rw [hstep1]
    rw [hstep2]
  · rw [hstep1]
    rw [hstep2]
    rw [hget2]
    rfl
  · rw [hset, hstep3]
  · rw [hset, hstep3]
    rw [hget3]
    rfl

/-- Witness for C9 on the empty store with hotkey "X", epoch 0,
d1 = 2, d2 = 7/2, w = 2, d = 7/2. -/
theorem weight_store_set_add_witness :
    (update_weight [] "X" 2 0).2 = 2 ∧
    (update_weight (update_weight [] "X" 2 0).1 "X" (7/2) 0).2 = 2 + 7/2 ∧
    (dbGetWeight (update_weight (update_weight [] "X" 2 0).1 "X" (7/2) 0).1
        "X" 0).map (fun r => r.weight) = some (2 + 7/2) ∧
    (update_weight (set_weight [] "X" 2 0) "X" (7/2) 0).2 = 2 + 7/2 ∧
    (dbGetWeight (update_weight (set_weight [] "X" 2 0) "X" (7/2) 0).1
        "X" 0).map (fun r => r.weight) = some (2 + 7/2) :=
  weight_store_set_add [] "X" 0 2 (7/2) 2 (7/2) rfl

/-! ## Mock pylon client -/

theorem behaviorAt_of_lt (bs : List MockBehavior) (k : Nat)
    (hk : k < bs.length) : behaviorAt bs k = bs[k] := by
  rw [behaviorAt]
  have hmin : min k (bs.length - 1) = k := by omega
  rw [hmin, List.getD_eq_getElem?_getD, List.getElem?_eq_getElem hk]
  rfl

theorem behaviorAt_of_ge (bs : List MockBehavior) (k : Nat)
    (hbs : bs ≠ []) (hk : bs.length ≤ k) :
    behaviorAt bs k = behaviorAt bs (bs.length - 1) := by
  have hlen : 0 < bs.length := List.length_pos.mpr hbs
  rw [behaviorAt, behaviorAt]
  have h1 : min k (bs.length - 1) = bs.length - 1 := by omega
  have h2 : min (bs.length - 1) (bs.length - 1) = bs.length - 1 := by omega
  rw [h1, h2]

theorem mockRequest_step {Req : Type} (bs : List MockBehavior) (hbs : bs ≠ [])
    (k : Nat) (made : List Req) (r : Req) :
    mockRequest
        ⟨if k = 0 then none else some (behaviorAt bs (k - 1)), bs.drop k, made⟩ r
      = (⟨some (behaviorAt bs k), bs.drop (k + 1), made ++ [r]⟩,
         some (applyBehavior (behaviorAt bs k))) := by
  have hlen : 0 < bs.length := List.length_pos.mpr hbs
  by_cases hk : k < bs.length
  · have hdrop : bs.drop k = bs[k] :: bs.drop (k + 1) :=
      List.drop_eq_getElem_cons hk
    have hat : behaviorAt bs k = bs[k] := behaviorAt_of_lt bs k hk
    rw [hdrop]
    simp only [mockRequest]
    rw [hat]
  · have hk2 : bs.length ≤ k := by omega
    have hk0 : k ≠ 0 := by omega
    have hdrop : bs.drop k = [] := List.drop_eq_nil_of_le hk2
    have hdrop2 : bs.drop (k + 1) = [] := List.drop_eq_nil_of_le (by omega)
    have hat : behaviorAt bs (k - 1) = behaviorAt bs k := by
      rw [behaviorAt, behaviorAt]
      have h1 : min (k - 1) (bs.length - 1) = bs.length - 1 := by omega
      have h2 : min k (bs.length - 1) = bs.length - 1 := by omega
      rw [h1, h2]
    rw [if_neg hk0, hdrop, hdrop2, hat]
    simp only [mockRequest]

theorem runMockRequests_from {Req : Type} (bs : List MockBehavior)
    (hbs : bs ≠ []) :
    ∀ (reqs : List Req) (k : Nat) (made : List Req),
      runMockRequests
          ⟨if k = 0 then none else some (behaviorAt bs (k - 1)),
           bs.drop k, made⟩ reqs
        = (⟨if k + reqs.length = 0 then none
            else some (behaviorAt bs (k + reqs.length - 1)),
            bs.drop (k + reqs.length), made ++ reqs⟩,
           (List.range reqs.length).map
             (fun i => some (applyBehavior (behaviorAt bs (k + i))))) := by
  intro reqs
  induction reqs with
  | nil =>
    intro k made
    simp [runMockRequests]
  | cons r rs ih =>
    intro k made
    have hstep := mockRequest_step bs hbs k made r
    have hih := ih (k + 1) (made ++ [r])
    have hif : (if k + 1 = 0 then (none : Option MockBehavior)
        else some (behaviorAt bs (k + 1 - 1))) = some (behaviorAt bs k) := by
      simp
    rw [hif] at hih
    simp only [runMockRequests, hstep, hih]
    have h1 : k + 1 + rs.length = k + (r :: rs).length := by
      simp
      omega
    have h2 : (made ++ [r]) ++ rs = made ++ (r :: rs) := by
      rw [List.append_assoc]
      rfl
    rw [h1, h2]
    have h3 : (List.range (r :: rs).length).map
        (fun i => some (applyBehavior (behaviorAt bs (k + i))))
        = some (applyBehavior (behaviorAt bs k))
          :: (List.range rs.length).map
              (fun i => some (applyBehavior (behaviorAt bs (k + 1 + i)))) := by
      rw [List.length_cons, List.range_succ_eq_map, List.map_cons, List.map_map]
      refine congrArg₂ _ (by simp) ?_
      refine congrArg₂ _ ?_ rfl
      funext i
      simp only [Function.comp]
      have : k + Nat.succ i = k + 1 + i := by omega
      rw [this]
    rw [h3]

/-- C10: for the mock client transport: every call to request appends the
request's arguments to the recorded request list in call order,
programmed behaviors are consumed one per request from the front of the
behavior list, and once the list is exhausted every subsequent request
re-applies the last consumed behavior rather than failing. -/
theorem mock_client_behavior {Req : Type} (bs : List MockBehavior)
    (hbs : bs ≠ []) (reqs : List Req) :
    (runMockRequests ⟨none, bs, []⟩ reqs).1.requests_made = reqs ∧
    (runMockRequests ⟨none, bs, []⟩ reqs).1.behavior = bs.drop reqs.length ∧
    (runMockRequests ⟨none, bs, []⟩ reqs).2
      = (List.range reqs.length).map
          (fun i => some (applyBehavior (behaviorAt bs i))) := by
  have h := runMockRequests_from bs hbs reqs 0 []
  have h0 : (if (0 : Nat) = 0 then (none : Option MockBehavior)
      else some (behaviorAt bs (0 - 1))) = none := by simp
  rw [h0, List.drop_zero] at h
  rw [h]
  refine ⟨by simp, by simp, ?_⟩
  simp

/-- Witness for C10: two programmed behaviors and three requests — the
third request re-applies the last behavior, and all three requests are
recorded in order. -/
theorem mock_client_behavior_witness :
    (runMockRequests
        ⟨none, [MockBehavior.raiseRequestError "boom", MockBehavior.workNormally],
         []⟩ ["a", "b", "c"]).1.requests_made = ["a", "b", "c"] ∧
    (runMockRequests
        ⟨none, [MockBehavior.raiseRequestError "boom", MockBehavior.workNormally],
         []⟩ ["a", "b", "c"]).1.behavior
      = [MockBehavior.raiseRequestError "boom", MockBehavior.workNormally].drop 3 ∧
    (runMockRequests
        ⟨none, [MockBehavior.raiseRequestError "boom", MockBehavior.workNormally],
         []⟩ ["a", "b", "c"]).2
      = (List.range 3).map
          (fun i => some (applyBehavior (behaviorAt
            [MockBehavior.raiseRequestError "boom", MockBehavior.workNormally] i))) :=
  mock_client_behavior
    [MockBehavior.raiseRequestError "boom", MockBehavior.workNormally]
    (by decide) ["a", "b", "c"]

end Pylon
